import Mathlib

/-
Verification development for the Growth Funnel Lab dashboard (src/app.py).

The app is a single pandas pipeline: load CSV → normalize/validate columns →
date filter → channel filter → KPIs → funnel table with drop-off percentages →
channel grouping with roas/cac/cvr → three insight selections.

Numeric columns are embedded as exact rationals (pandas uses float64; the
zero-denominator behaviour of float division is modelled explicitly by the
`PFloat` type below: x/0 is +inf for x>0, -inf for x<0 and NaN for 0/0, and
`pd.NA` produced by `.replace({0: pd.NA})` is modelled as `Option.none`).
`round` is IEEE/numpy round-half-to-even, modelled exactly on rationals.

`sort_values(...).head(1)` is modelled after pandas `nargsort`: a stable
ascending argsort of the non-NaN entries, reversed when `ascending=False`,
with NaN rows appended at the end (`na_position="last"`).  Hence the head of a
descending sort is the LAST occurrence of the maximum among ties, and the head
of an ascending sort is the FIRST occurrence of the minimum.
-/

namespace GrowthFunnel

/-- One row of the input table, after column normalization and date parsing
(`date` is a day number; app.py compares dates at day granularity). -/
structure Record where
  date : Int
  channel : String
  visits : Nat
  signup : Nat
  add_to_cart : Nat
  checkout : Nat
  purchase : Nat
  spend : Rat
  revenue : Rat
deriving DecidableEq

/-- Result of a pandas float computation: a finite rational, an infinity
produced by division by zero, or NaN (also covering `pd.NA`). -/
inductive PFloat where
  | num (q : Rat)
  | posInf
  | negInf
  | nan
deriving DecidableEq

/-- Rank used to order non-numeric float values: -inf below all numbers,
+inf above, NaN greatest (only compared after NaN rows were filtered out). -/
def PFloat.rank : PFloat → Nat
  | .negInf => 0
  | .num _ => 1
  | .posInf => 2
  | .nan => 3

/-- Strict comparison of pandas float values (never applied to NaN by the
model, since sorting removes NaN rows first). -/
def pfLt : PFloat → PFloat → Bool
  | .num x, .num y => decide (x < y)
  | a, b => decide (a.rank < b.rank)

/-- Non-strict comparison, defined as the negation of the reversed strict one. -/
def pfLe (a b : PFloat) : Bool := !pfLt b a

/-- Whether a pandas float value is NaN. -/
def PFloat.isNan : PFloat → Bool
  | .nan => true
  | _ => false

/-- IEEE float division semantics on exact rationals: division by zero yields
a signed infinity, and 0/0 yields NaN. -/
def pdiv (a b : Rat) : PFloat :=
  if b ≠ 0 then .num (a / b)
  else if 0 < a then .posInf
  else if a < 0 then .negInf
  else .nan

/-- numpy round-half-to-even at `d` decimal places, exactly on rationals. -/
def roundHalfEven (q : Rat) (d : Nat) : Rat :=
  let m : Rat := (10 : Rat) ^ d
  let x := q * m
  let fl : Int := x.floor
  let frac : Rat := x - (fl : Rat)
  let r : Int :=
    if frac < 1 / 2 then fl
    else if 1 / 2 < frac then fl + 1
    else if fl % 2 = 0 then fl else fl + 1
  (r : Rat) / m

/-- `Series.round(d)`: rounds finite values, leaves infinities and NaN alone. -/
def proundP (p : PFloat) (d : Nat) : PFloat :=
  match p with
  | .num q => .num (roundHalfEven q d)
  | x => x

/-- Insert a string into a strictly-ascending list, keeping it strictly
ascending (duplicates collapse).  Building block for sorted-unique values. -/
def insertSortedU (s : String) : List String → List String
  | [] => [s]
  | x :: xs =>
    if s = x then x :: xs
    else if s < x then s :: x :: xs
    else x :: insertSortedU s xs

/-- `sorted(series.unique())`: the distinct values, in ascending order. -/
def sortedUnique (l : List String) : List String :=
  l.foldr insertSortedU []

/-- Date-range test of app.py line 44: inclusive at both ends. -/
def inRange (s e : Int) (r : Record) : Bool :=
  decide (s ≤ r.date) && decide (r.date ≤ e)

/-- The date mask of app.py lines 44-45. -/
def dateFilter (s e : Int) (d : List Record) : List Record :=
  d.filter (inRange s e)

/-- The channel mask of app.py line 48. -/
def channelFilter (sel : List String) (d : List Record) : List Record :=
  d.filter (fun r => sel.contains r.channel)

/-- Both filters in app.py order: date range first, then channel membership. -/
def applyFilters (d : List Record) (s e : Int) (sel : List String) : List Record :=
  channelFilter sel (dateFilter s e d)

/-- The option/default list of the channel multiselect (app.py line 47):
computed from the DATE-FILTERED frame, since line 45 reassigns `df` before
line 47 runs. -/
def channelOptions (d : List Record) (s e : Int) : List String :=
  sortedUnique ((dateFilter s e d).map (fun r => r.channel))

/-- Top-level KPI values (app.py lines 51-58); ratios fall back to 0 on a
zero denominator via Python truthiness (`if spend else 0`). -/
structure KPISet where
  spend : Rat
  revenue : Rat
  purchases : Nat
  visits : Nat
  roas : Rat
  cac : Rat
  cvr : Rat
deriving DecidableEq

/-- KPI computation of app.py lines 51-58 on the filtered frame. -/
def kpis (d : List Record) : KPISet :=
  let sp := (d.map (fun r => r.spend)).sum
  let rv := (d.map (fun r => r.revenue)).sum
  let pu := (d.map (fun r => r.purchase)).sum
  let vi := (d.map (fun r => r.visits)).sum
  { spend := sp, revenue := rv, purchases := pu, visits := vi,
    roas := if sp ≠ 0 then rv / sp else 0,
    cac := if pu ≠ 0 then sp / (pu : Rat) else 0,
    cvr := if vi ≠ 0 then (pu : Rat) / (vi : Rat) else 0 }

/-- One row of the funnel frame (app.py lines 70-79): stage label, stage
count, shifted next-stage count (`none` models the NaN of `shift(-1)` in the
last row) and the drop-off value. -/
structure FunnelRow where
  stage : String
  count : Nat
  next : Option Nat
  dropoff : PFloat
deriving DecidableEq

/-- app.py line 79: `((count - next) / count).round(4)`.  A `none` next count
(last row) makes the whole expression NaN. -/
def mkDropoff (c : Nat) (n : Option Nat) : PFloat :=
  match n with
  | none => .nan
  | some nx => proundP (pdiv ((c : Rat) - (nx : Rat)) (c : Rat)) 4

/-- The five funnel rows for given stage counts, with the `shift(-1)` column. -/
def mkFunnel (v s a k p : Nat) : List FunnelRow :=
  [⟨"Visits", v, some s, mkDropoff v (some s)⟩,
   ⟨"Signup", s, some a, mkDropoff s (some a)⟩,
   ⟨"Add to Cart", a, some k, mkDropoff a (some k)⟩,
   ⟨"Checkout", k, some p, mkDropoff k (some p)⟩,
   ⟨"Purchase", p, none, mkDropoff p none⟩]

/-- Funnel frame of app.py lines 70-79 for a filtered dataset. -/
def funnelRows (d : List Record) : List FunnelRow :=
  mkFunnel ((d.map (fun r => r.visits)).sum) ((d.map (fun r => r.signup)).sum)
    ((d.map (fun r => r.add_to_cart)).sum) ((d.map (fun r => r.checkout)).sum)
    ((d.map (fun r => r.purchase)).sum)

/-- `funnel.dropna()` (app.py line 109): keeps the rows in which every column
is non-missing, i.e. `next` is present and `dropoff` is not NaN. -/
def retainedRows (d : List Record) : List FunnelRow :=
  (funnelRows d).filter (fun r => r.next.isSome && !r.dropoff.isNan)

/-- One row of the channel-performance frame (app.py lines 91-99).  `cac` and
`cvr` are `Option Rat` because their denominators go through
`.replace({0: pd.NA})`; `roas` does not, so it is a raw `PFloat`. -/
structure ChRow where
  channel : String
  spend : Rat
  revenue : Rat
  purchase : Nat
  visits : Nat
  roas : PFloat
  cac : Option Rat
  cvr : Option Rat
deriving DecidableEq

/-- The aggregated row of `groupby("channel")` for one channel key, with the
derived ratio columns of app.py lines 97-99. -/
def mkChRow (d : List Record) (c : String) : ChRow :=
  let rows := d.filter (fun r => decide (r.channel = c))
  let sp := (rows.map (fun r => r.spend)).sum
  let rv := (rows.map (fun r => r.revenue)).sum
  let pu := (rows.map (fun r => r.purchase)).sum
  let vi := (rows.map (fun r => r.visits)).sum
  { channel := c, spend := sp, revenue := rv, purchase := pu, visits := vi,
    roas := proundP (pdiv rv sp) 2,
    cac := if pu = 0 then none else some (roundHalfEven (sp / (pu : Rat)) 2),
    cvr := if vi = 0 then none
           else some (roundHalfEven ((pu : Rat) / (vi : Rat)) 4) }

/-- `df.groupby("channel", as_index=False).agg(...)` plus the derived columns
(app.py lines 91-99); groups appear in ascending channel order
(`groupby` default `sort=True`). -/
def by_ch (d : List Record) : List ChRow :=
  (sortedUnique (d.map (fun r => r.channel))).map (mkChRow d)

/-- Pandas descending-sort tie behaviour: the head of
`sort_values(ascending=False)` is the maximum, taking the LAST occurrence
among ties (stable ascending argsort, then reversed). -/
def argmaxLast {α : Type} (f : α → PFloat) : List α → Option α
  | [] => none
  | x :: xs =>
    match argmaxLast f xs with
    | none => some x
    | some b => if pfLt (f b) (f x) then some x else some b

/-- Pandas ascending-sort tie behaviour: the head of `sort_values()` is the
minimum, taking the FIRST occurrence among ties (stable argsort). -/
def argminFirst {α : Type} (f : α → PFloat) : List α → Option α
  | [] => none
  | x :: xs =>
    match argminFirst f xs with
    | none => some x
    | some b => if pfLt (f b) (f x) then some b else some x

/-- Head of `sort_values(key, ascending=False).head(1)`: NaN rows are set
aside (`na_position="last"`), the non-NaN maximum with last-occurrence ties
wins; if every key is NaN the first row is returned. -/
def sortHeadDesc {α : Type} (f : α → PFloat) (l : List α) : Option α :=
  match argmaxLast f (l.filter (fun x => !(f x).isNan)) with
  | some x => some x
  | none => l.head?

/-- Head of `sort_values(key, ascending=True).head(1)`, same NaN handling. -/
def sortHeadAsc {α : Type} (f : α → PFloat) (l : List α) : Option α :=
  match argminFirst f (l.filter (fun x => !(f x).isNan)) with
  | some x => some x
  | none => l.head?

/-- app.py line 105: `by_ch.sort_values("roas", ascending=False).head(1)`,
`none` meaning the frame is empty (so `.iloc[0]` would raise). -/
def bestRow (d : List Record) : Option ChRow :=
  sortHeadDesc (fun r => r.roas) (by_ch d)

/-- app.py line 106: `by_ch.sort_values("roas", ascending=True).head(1)`. -/
def worstRow (d : List Record) : Option ChRow :=
  sortHeadAsc (fun r => r.roas) (by_ch d)

/-- app.py line 109: `funnel.dropna().sort_values("dropoff_%", ascending=False)
.head(1)`; the retained rows carry no NaN, so this is a plain last-max. -/
def dropRow (d : List Record) : Option FunnelRow :=
  argmaxLast (fun r => r.dropoff) (retainedRows d)

/-- Rendering of a float value inside an insight string. -/
def pfLabel : PFloat → String
  | .num q => toString q
  | .posInf => "inf"
  | .negInf => "-inf"
  | .nan => "nan"

/-- The three insight strings of app.py lines 111-113.  `none` models the
IndexError raised by `.iloc[0]` when a selection frame is empty. -/
def insightTriple (d : List Record) : Option (String × String × String) :=
  match bestRow d, worstRow d, dropRow d with
  | some b, some w, some dr =>
    some ("Best ROAS channel: " ++ b.channel ++ " (" ++ pfLabel b.roas ++ "x)",
          "Lowest ROAS channel: " ++ w.channel ++ " (" ++ pfLabel w.roas ++ "x)",
          "Biggest funnel drop: " ++ dr.stage ++ " -> next step (" ++
            pfLabel dr.dropoff ++ " drop-off)")
  | _, _, _ => none

/-- The required column set of app.py line 29. -/
def requiredCols : List String :=
  ["date", "channel", "visits", "signup", "add_to_cart", "checkout",
   "purchase", "spend", "revenue"]

/-- Column normalization of app.py line 27: lower-case and strip. -/
def normalizeCols (cols : List String) : List String :=
  cols.map (fun c => c.toLower.trim)

/-- `sorted(list(required - set(df.columns)))` of app.py lines 30-32. -/
def missingCols (cols : List String) : List String :=
  sortedUnique (requiredCols.filter (fun c => !(normalizeCols cols).contains c))

/-- Everything the app renders below the validation step. -/
structure Output where
  kpi : KPISet
  funnel : List FunnelRow
  channels : List ChRow
deriving DecidableEq

/-- The pipeline from validation down (app.py lines 29-101): on missing
columns `st.error` + `st.stop()` fire, so nothing downstream is produced. -/
def validateAndRun (cols : List String) (d : List Record) (s e : Int)
    (sel : List String) : Except (List String) Output :=
  let m := missingCols cols
  if m = [] then
    let fd := applyFilters d s e sel
    .ok ⟨kpis fd, funnelRows fd, by_ch fd⟩
  else .error m

/-- Sample dataset: one row, dated outside the range used in the empty-filter
scenario. -/
def exC1 : List Record := [⟨10, "A", 5, 4, 3, 2, 1, 2, 3⟩]

/-- Sample dataset: a single channel with zero spend but positive revenue. -/
def exC2 : List Record := [⟨0, "A", 1, 0, 0, 0, 0, 0, 10⟩]

/-- Sample dataset with a purchase, used to exercise the defined-ratio arms. -/
def exC2w : List Record := [⟨0, "A", 4, 0, 0, 0, 2, 2, 6⟩]

/-- Sample dataset realising the spec's tie example: channels A (roas 3.0),
B (roas 1.5), C (roas 3.0). -/
def exC3 : List Record :=
  [⟨0, "A", 1, 0, 0, 0, 0, 1, 3⟩, ⟨0, "B", 1, 0, 0, 0, 0, 2, 3⟩,
   ⟨0, "C", 1, 0, 0, 0, 0, 1, 3⟩]

/-- Sample dataset whose two channels live on different dates. -/
def exC4 : List Record :=
  [⟨0, "A", 1, 0, 0, 0, 0, 0, 0⟩, ⟨10, "B", 1, 0, 0, 0, 0, 0, 0⟩]

/-- Sample dataset with funnel counts 100, 50, 25, 25, 25: the first two
stages tie at a 50% drop. -/
def exC5 : List Record := [⟨0, "X", 100, 50, 25, 25, 25, 0, 0⟩]

/-- Sample dataset with zero visits but nonzero signups (monotonicity of the
funnel is assumed by the spec but nowhere enforced). -/
def exC6 : List Record := [⟨0, "X", 0, 5, 0, 0, 0, 0, 0⟩]

/-- A header missing only the `revenue` column. -/
def colsNoRevenue : List String :=
  ["date", "channel", "visits", "signup", "add_to_cart", "checkout",
   "purchase", "spend"]

/-- The single channel row produced by `by_ch exC2w`. -/
def rowC2 : ChRow := ⟨"A", 2, 6, 2, 4, PFloat.num 3, some 1, some (1 / 2)⟩

/-- The channel row selected as best-ROAS on `exC3` (the LAST of the two
tied maxima in grouped order). -/
def bestC3 : ChRow := ⟨"C", 1, 3, 0, 1, PFloat.num 3, none, some 0⟩

/-- The channel row selected as worst-ROAS on `exC3`. -/
def worstC3 : ChRow := ⟨"B", 2, 3, 0, 1, PFloat.num (3 / 2), none, some 0⟩

/-- The funnel row selected as biggest drop on `exC5` (the LAST of the two
tied 50% drops). -/
def rowC5 : FunnelRow := ⟨"Signup", 50, some 25, PFloat.num (1 / 2)⟩

/-- The first funnel row of `exC6`: zero count, nonzero successor, -inf drop. -/
def rowC6 : FunnelRow := ⟨"Visits", 0, some 5, PFloat.negInf⟩

/-- Outcome of the data-source branch of app.py lines 19-25. -/
inductive LoadResult (α : Type) where
  | data (d : α)
  | awaitInput
deriving DecidableEq

/-- app.py lines 19-25: an uploaded file wins over the sample button; with
neither, the app stops and waits for input. -/
def chooseSource {α : Type} (uploaded : Option α) (useSample : Bool)
    (sample : α) : LoadResult α :=
  match uploaded with
  | some u => .data u
  | none => if useSample then .data sample else .awaitInput

theorem pfLt_irrefl (a : PFloat) : pfLt a a = false := by
  cases a <;> simp [pfLt, PFloat.rank]

theorem pfLt_asymm {a b : PFloat} (h : pfLt a b = true) : pfLt b a = false := by
  cases a <;> cases b <;>
    simp_all [pfLt, PFloat.rank, not_lt] <;> first | omega | linarith

theorem pfLe_refl (a : PFloat) : pfLe a a = true := by
  simp [pfLe, pfLt_irrefl]

theorem pfLe_of_lt {a b : PFloat} (h : pfLt a b = true) : pfLe a b = true := by
  simp [pfLe, pfLt_asymm h]

theorem pfLe_of_not_lt {a b : PFloat} (h : pfLt b a = false) : pfLe a b = true := by
  simp [pfLe, h]

theorem pfLe_lt_trans {a b c : PFloat} (h1 : pfLe a b = true) (h2 : pfLt b c = true) :
    pfLt a c = true := by
  simp only [pfLe, Bool.not_eq_true'] at h1
  cases a <;> cases b <;> cases c <;>
    simp_all [pfLt, PFloat.rank, not_lt] <;> first | omega | linarith

theorem pfLe_trans {a b c : PFloat} (h1 : pfLe a b = true) (h2 : pfLe b c = true) :
    pfLe a c = true := by
  simp only [pfLe, Bool.not_eq_true'] at h1 h2 ⊢
  cases a <;> cases b <;> cases c <;>
    simp_all [pfLt, PFloat.rank, not_lt] <;> first | omega | linarith

theorem argmaxLast_eq_none {α : Type} {f : α → PFloat} :
    ∀ {l : List α}, argmaxLast f l = none ↔ l = [] := by
  intro l
  cases l with
  | nil => simp [argmaxLast]
  | cons x xs =>
    cases hm : argmaxLast f xs with
    | none => simp [argmaxLast, hm]
    | some b =>
      simp only [argmaxLast, hm]
      by_cases hlt : pfLt (f b) (f x) = true <;> simp [hlt]

theorem argmaxLast_mem {α : Type} {f : α → PFloat} :
    ∀ {l : List α} {x : α}, argmaxLast f l = some x → x ∈ l := by
  intro l
  induction l with
  | nil => intro x h; simp [argmaxLast] at h
  | cons a as ih =>
    intro x h
    cases hm : argmaxLast f as with
    | none =>
      simp only [argmaxLast, hm, Option.some.injEq] at h
      subst h
      exact List.mem_cons_self a as
    | some b =>
      simp only [argmaxLast, hm] at h
      by_cases hlt : pfLt (f b) (f a) = true
      · rw [if_pos hlt] at h
        simp only [Option.some.injEq] at h
        subst h
        exact List.mem_cons_self a as
      · rw [if_neg hlt] at h
        simp only [Option.some.injEq] at h
        subst h
        exact List.mem_cons_of_mem a (ih hm)

theorem argmaxLast_le {α : Type} {f : α → PFloat} :
    ∀ {l : List α} {x : α}, argmaxLast f l = some x →
      ∀ y ∈ l, pfLe (f y) (f x) = true := by
  intro l
  induction l with
  | nil => intro x h; simp [argmaxLast] at h
  | cons a as ih =>
    intro x h y hy
    cases hm : argmaxLast f as with
    | none =>
      simp only [argmaxLast, hm, Option.some.injEq] at h
      subst h
      have has : as = [] := argmaxLast_eq_none.mp hm
      subst has
      rcases List.mem_cons.mp hy with rfl | hy
      · exact pfLe_refl _
      · simp at hy
    | some b =>
      simp only [argmaxLast, hm] at h
      by_cases hlt : pfLt (f b) (f a) = true
      · rw [if_pos hlt] at h
        simp only [Option.some.injEq] at h
        subst h
        rcases List.mem_cons.mp hy with rfl | hy
        · exact pfLe_refl _
        · exact pfLe_of_lt (pfLe_lt_trans (ih hm y hy) hlt)
      · rw [if_neg hlt] at h
        simp only [Option.some.injEq] at h
        subst h
        rcases List.mem_cons.mp hy with rfl | hy
        · exact pfLe_of_not_lt (Bool.not_eq_true _ ▸ hlt)
        · exact ih hm y hy

theorem argmaxLast_last {α : Type} {f : α → PFloat} :
    ∀ (l₁ : List α) {l₂ : List α} {x : α}, (l₁ ++ x :: l₂).Nodup →
      argmaxLast f (l₁ ++ x :: l₂) = some x →
      ∀ y ∈ l₂, pfLt (f y) (f x) = true := by
  intro l₁
  induction l₁ with
  | nil =>
    intro l₂ x hnd h y hy
    rw [List.nil_append] at h
    cases hm : argmaxLast f l₂ with
    | none =>
      have : l₂ = [] := argmaxLast_eq_none.mp hm
      subst this
      simp at hy
    | some b =>
      simp only [argmaxLast, hm] at h
      by_cases hlt : pfLt (f b) (f x) = true
      · exact pfLe_lt_trans (argmaxLast_le hm y hy) hlt
      · rw [if_neg hlt] at h
        simp only [Option.some.injEq] at h
        subst h
        exact absurd (argmaxLast_mem hm) (List.nodup_cons.mp hnd).1
  | cons a l₁ ih =>
    intro l₂ x hnd h y hy
    rw [List.cons_append] at h hnd
    cases hm : argmaxLast f (l₁ ++ x :: l₂) with
    | none =>
      have : l₁ ++ x :: l₂ = [] := argmaxLast_eq_none.mp hm
      exact absurd this (by simp)
    | some b =>
      simp only [argmaxLast, hm] at h
      by_cases hlt : pfLt (f b) (f a) = true
      · rw [if_pos hlt] at h
        simp only [Option.some.injEq] at h
        subst h
        have hxmem : a ∈ l₁ ++ a :: l₂ := by simp
        have := (List.nodup_cons.mp hnd).1
        exact absurd hxmem this
      · rw [if_neg hlt] at h
        simp only [Option.some.injEq] at h
        subst h
        exact ih (List.nodup_cons.mp hnd).2 hm y hy

theorem argminFirst_eq_none {α : Type} {f : α → PFloat} :
    ∀ {l : List α}, argminFirst f l = none ↔ l = [] := by
  intro l
  cases l with
  | nil => simp [argminFirst]
  | cons x xs =>
    cases hm : argminFirst f xs with
    | none => simp [argminFirst, hm]
    | some b =>
      simp only [argminFirst, hm]
      by_cases hlt : pfLt (f b) (f x) = true <;> simp [hlt]

theorem argminFirst_mem {α : Type} {f : α → PFloat} :
    ∀ {l : List α} {x : α}, argminFirst f l = some x → x ∈ l := by
  intro l
  induction l with
  | nil => intro x h; simp [argminFirst] at h
  | cons a as ih =>
    intro x h
    cases hm : argminFirst f as with
    | none =>
      simp only [argminFirst, hm, Option.some.injEq] at h
      subst h
      exact List.mem_cons_self a as
    | some b =>
      simp only [argminFirst, hm] at h
      by_cases hlt : pfLt (f b) (f a) = true
      · rw [if_pos hlt] at h
        simp only [Option.some.injEq] at h
        subst h
        exact List.mem_cons_of_mem a (ih hm)
      · rw [if_neg hlt] at h
        simp only [Option.some.injEq] at h
        subst h
        exact List.mem_cons_self a as

theorem argminFirst_le {α : Type} {f : α → PFloat} :
    ∀ {l : List α} {x : α}, argminFirst f l = some x →
      ∀ y ∈ l, pfLe (f x) (f y) = true := by
  intro l
  induction l with
  | nil => intro x h; simp [argminFirst] at h
  | cons a as ih =>
    intro x h y hy
    cases hm : argminFirst f as with
    | none =>
      simp only [argminFirst, hm, Option.some.injEq] at h
      subst h
      have has : as = [] := argminFirst_eq_none.mp hm
      subst has
      rcases List.mem_cons.mp hy with rfl | hy
      · exact pfLe_refl _
      · simp at hy
    | some b =>
      simp only [argminFirst, hm] at h
      by_cases hlt : pfLt (f b) (f a) = true
      · rw [if_pos hlt] at h
        simp only [Option.some.injEq] at h
        subst h
        rcases List.mem_cons.mp hy with rfl | hy
        · exact pfLe_of_lt hlt
        · exact ih hm y hy
      · rw [if_neg hlt] at h
        simp only [Option.some.injEq] at h
        subst h
        rcases List.mem_cons.mp hy with rfl | hy
        · exact pfLe_refl _
        · exact pfLe_trans (pfLe_of_not_lt (Bool.not_eq_true _ ▸ hlt)) (ih hm y hy)

theorem argminFirst_first {α : Type} {f : α → PFloat} :
    ∀ (l₁ : List α) {l₂ : List α} {x : α}, (l₁ ++ x :: l₂).Nodup →
      argminFirst f (l₁ ++ x :: l₂) = some x →
      ∀ y ∈ l₁, pfLt (f x) (f y) = true := by
  intro l₁
  induction l₁ with
  | nil => intro l₂ x _ _ y hy; simp at hy
  | cons a l₁ ih =>
    intro l₂ x hnd h y hy
    rw [List.cons_append] at h hnd
    cases hm : argminFirst f (l₁ ++ x :: l₂) with
    | none =>
      have : l₁ ++ x :: l₂ = [] := argminFirst_eq_none.mp hm
      exact absurd this (by simp)
    | some b =>
      simp only [argminFirst, hm] at h
      by_cases hlt : pfLt (f b) (f a) = true
      · rw [if_pos hlt] at h
        simp only [Option.some.injEq] at h
        subst h
        rcases List.mem_cons.mp hy with rfl | hy
        · exact hlt
        · exact ih (List.nodup_cons.mp hnd).2 hm y hy
      · rw [if_neg hlt] at h
        simp only [Option.some.injEq] at h
        subst h
        exact absurd (List.mem_append_right _ (List.mem_cons_self _ _))
          (List.nodup_cons.mp hnd).1

theorem mem_insertSortedU {a s : String} :
    ∀ {l : List String}, a ∈ insertSortedU s l ↔ a = s ∨ a ∈ l := by
  intro l
  induction l with
  | nil => simp [insertSortedU]
  | cons x xs ih =>
    simp only [insertSortedU]
    by_cases h1 : s = x
    · subst h1
      rw [if_pos rfl]
      simp [List.mem_cons]
    · rw [if_neg h1]
      by_cases h2 : s < x
      · rw [if_pos h2]
        simp [List.mem_cons]
      · rw [if_neg h2]
        simp only [List.mem_cons, ih]
        tauto

theorem pairwise_insertSortedU {s : String} :
    ∀ {l : List String}, l.Pairwise (· < ·) →
      (insertSortedU s l).Pairwise (· < ·) := by
  intro l
  induction l with
  | nil => intro _; simp [insertSortedU]
  | cons x xs ih =>
    intro hp
    rw [List.pairwise_cons] at hp
    obtain ⟨hx, hxs⟩ := hp
    simp only [insertSortedU]
    by_cases h1 : s = x
    · rw [if_pos h1]
      exact List.pairwise_cons.mpr ⟨hx, hxs⟩
    · rw [if_neg h1]
      by_cases h2 : s < x
      · rw [if_pos h2]
        refine List.pairwise_cons.mpr ⟨?_, List.pairwise_cons.mpr ⟨hx, hxs⟩⟩
        intro b hb
        rcases List.mem_cons.mp hb with rfl | hb
        · exact h2
        · exact lt_trans h2 (hx b hb)
      · rw [if_neg h2]
        have hgt : x < s := by
          rcases lt_trichotomy s x with h | h | h
          · exact absurd h h2
          · exact absurd h h1
          · exact h
        refine List.pairwise_cons.mpr ⟨?_, ih hxs⟩
        intro b hb
        rcases mem_insertSortedU.mp hb with rfl | hb
        · exact hgt
        · exact hx b hb

theorem pairwise_sortedUnique (l : List String) :
    (sortedUnique l).Pairwise (· < ·) := by
  induction l with
  | nil => simp [sortedUnique]
  | cons x xs ih => exact pairwise_insertSortedU ih

theorem mem_sortedUnique {a : String} :
    ∀ {l : List String}, a ∈ sortedUnique l ↔ a ∈ l := by
  intro l
  induction l with
  | nil => simp [sortedUnique]
  | cons x xs ih =>
    show a ∈ insertSortedU x (sortedUnique xs) ↔ a ∈ x :: xs
    rw [mem_insertSortedU, ih, List.mem_cons]

theorem nodup_sortedUnique (l : List String) : (sortedUnique l).Nodup :=
  (pairwise_sortedUnique l).imp ne_of_lt

theorem sortHeadDesc_eq_argmax {α : Type} {f : α → PFloat} {l : List α}
    (h : ∀ x ∈ l, (f x).isNan = false) : sortHeadDesc f l = argmaxLast f l := by
  unfold sortHeadDesc
  rw [List.filter_eq_self.mpr (fun a ha => by simp [h a ha])]
  cases hm : argmaxLast f l with
  | none => rw [argmaxLast_eq_none.mp hm]; rfl
  | some b => rfl

theorem sortHeadAsc_eq_argmin {α : Type} {f : α → PFloat} {l : List α}
    (h : ∀ x ∈ l, (f x).isNan = false) : sortHeadAsc f l = argminFirst f l := by
  unfold sortHeadAsc
  rw [List.filter_eq_self.mpr (fun a ha => by simp [h a ha])]
  cases hm : argminFirst f l with
  | none => rw [argminFirst_eq_none.mp hm]; rfl
  | some b => rfl

theorem by_ch_nodup (d : List Record) : (by_ch d).Nodup := by
  refine List.Nodup.map ?_ (nodup_sortedUnique _)
  intro c₁ c₂ h
  exact congrArg ChRow.channel h

theorem funnelRows_map_stage (d : List Record) :
    (funnelRows d).map FunnelRow.stage =
      ["Visits", "Signup", "Add to Cart", "Checkout", "Purchase"] := rfl

theorem funnelRows_nodup (d : List Record) : (funnelRows d).Nodup := by
  apply List.Nodup.of_map FunnelRow.stage
  rw [funnelRows_map_stage]
  decide

theorem retainedRows_nodup (d : List Record) : (retainedRows d).Nodup :=
  (funnelRows_nodup d).filter _

theorem sum_map_ite_zero {M : Type} [AddCommMonoid M] {a : String} {v : M} :
    ∀ {ks : List String}, a ∉ ks →
      (ks.map (fun c => if a = c then v else 0)).sum = 0 := by
  intro ks
  induction ks with
  | nil => intro _; simp
  | cons k ks ih =>
    intro h
    have hne : a ≠ k := fun hh => h (hh ▸ List.mem_cons_self k ks)
    have hnm : a ∉ ks := fun hh => h (List.mem_cons_of_mem k hh)
    simp only [List.map_cons, List.sum_cons, if_neg hne, zero_add]
    exact ih hnm

theorem sum_map_ite_single {M : Type} [AddCommMonoid M] {a : String} {v : M} :
    ∀ {ks : List String}, ks.Nodup → a ∈ ks →
      (ks.map (fun c => if a = c then v else 0)).sum = v := by
  intro ks
  induction ks with
  | nil => intro _ h; simp at h
  | cons k ks ih =>
    intro hnd hmem
    obtain ⟨hk, hnd'⟩ := List.nodup_cons.mp hnd
    rcases List.mem_cons.mp hmem with rfl | hmem
    · rw [List.map_cons, List.sum_cons, if_pos rfl, sum_map_ite_zero hk, add_zero]
    · have hne : a ≠ k := fun hh => hk (hh ▸ hmem)
      simp only [List.map_cons, List.sum_cons, if_neg hne, zero_add]
      exact ih hnd' hmem

theorem groupsum_eq_sum {M : Type} [AddCommMonoid M] (f : Record → M) :
    ∀ (l : List Record) {ks : List String}, ks.Nodup →
      (∀ r ∈ l, r.channel ∈ ks) →
      (ks.map
        (fun c => ((l.filter (fun r => decide (r.channel = c))).map f).sum)).sum
        = (l.map f).sum := by
  intro l
  induction l with
  | nil =>
    intro ks _ _
    simp
  | cons x l ih =>
    intro ks hnd hcov
    have step : ∀ c ∈ ks,
        ((((x :: l).filter (fun r => decide (r.channel = c))).map f).sum) =
          (if x.channel = c then f x else 0) +
            ((l.filter (fun r => decide (r.channel = c))).map f).sum := by
      intro c _
      by_cases h : x.channel = c
      · rw [List.filter_cons_of_pos (by simp [h]), if_pos h]
        simp
      · rw [List.filter_cons_of_neg (by simp [h]), if_neg h, zero_add]
    rw [List.map_congr_left step, List.sum_map_add,
      sum_map_ite_single hnd (hcov x (List.mem_cons_self x l)),
      ih hnd (fun r hr => hcov r (List.mem_cons_of_mem x hr))]
    simp

theorem mkChRow_channel (d : List Record) (c : String) :
    (mkChRow d c).channel = c := rfl

theorem mkChRow_cac (d : List Record) (c : String) :
    (mkChRow d c).cac = (if (mkChRow d c).purchase = 0 then none
      else some (roundHalfEven ((mkChRow d c).spend / ((mkChRow d c).purchase : Rat)) 2)) := rfl

theorem mkChRow_cvr (d : List Record) (c : String) :
    (mkChRow d c).cvr = (if (mkChRow d c).visits = 0 then none
      else some (roundHalfEven (((mkChRow d c).purchase : Rat) / ((mkChRow d c).visits : Rat)) 4)) := rfl

theorem mkChRow_roas (d : List Record) (c : String) :
    (mkChRow d c).roas =
      proundP (pdiv (mkChRow d c).revenue (mkChRow d c).spend) 2 := rfl

theorem kpis_spend (d : List Record) :
    (kpis d).spend = (d.map (fun r => r.spend)).sum := rfl

theorem kpis_revenue (d : List Record) :
    (kpis d).revenue = (d.map (fun r => r.revenue)).sum := rfl

theorem kpis_purchases (d : List Record) :
    (kpis d).purchases = (d.map (fun r => r.purchase)).sum := rfl

theorem kpis_visits (d : List Record) :
    (kpis d).visits = (d.map (fun r => r.visits)).sum := rfl

theorem by_ch_spend_sum (l : List Record) :
    ((by_ch l).map ChRow.spend).sum = (l.map (fun r => r.spend)).sum := by
  unfold by_ch
  rw [List.map_map]
  exact groupsum_eq_sum (fun r => r.spend) l (nodup_sortedUnique _)
    (fun r hr => mem_sortedUnique.mpr (List.mem_map_of_mem _ hr))

theorem by_ch_revenue_sum (l : List Record) :
    ((by_ch l).map ChRow.revenue).sum = (l.map (fun r => r.revenue)).sum := by
  unfold by_ch
  rw [List.map_map]
  exact groupsum_eq_sum (fun r => r.revenue) l (nodup_sortedUnique _)
    (fun r hr => mem_sortedUnique.mpr (List.mem_map_of_mem _ hr))

theorem by_ch_purchase_sum (l : List Record) :
    ((by_ch l).map ChRow.purchase).sum = (l.map (fun r => r.purchase)).sum := by
  unfold by_ch
  rw [List.map_map]
  exact groupsum_eq_sum (fun r => r.purchase) l (nodup_sortedUnique _)
    (fun r hr => mem_sortedUnique.mpr (List.mem_map_of_mem _ hr))

theorem by_ch_visits_sum (l : List Record) :
    ((by_ch l).map ChRow.visits).sum = (l.map (fun r => r.visits)).sum := by
  unfold by_ch
  rw [List.map_map]
  exact groupsum_eq_sum (fun r => r.visits) l (nodup_sortedUnique _)
    (fun r hr => mem_sortedUnique.mpr (List.mem_map_of_mem _ hr))

/-- C1: on a dataset whose only row falls outside the selected date range the
post-filter dataset is empty, and the insight generator does NOT return three
fallback strings: it evaluates `best["channel"].iloc[0]` on an empty channel
table, which raises (modelled by `insightTriple` returning `none`).  This
evaluates the code at the failing input for the claim. -/
theorem c1_empty_filter_insights_raise :
    applyFilters exC1 0 5 (channelOptions exC1 0 5) = [] ∧
    insightTriple (applyFilters exC1 0 5 (channelOptions exC1 0 5)) = none := by
  with_unfolding_all decide

/-- C2 counterexample: a channel with spend 0 and revenue 10 gets
`roas = +inf` (a rendered value, distinct from the NA/NaN "undefined"
rendering), not an undefined ratio as the claim states; its `cac`, by
contrast, really is NA. -/
theorem c2_roas_zero_spend_counterexample :
    (by_ch exC2).map ChRow.roas = [PFloat.posInf] ∧
    (by_ch exC2).map ChRow.cac = [none] ∧
    PFloat.posInf ≠ PFloat.nan := by
  with_unfolding_all decide

/-- C2 (amended): in every channel row, `cac` and `cvr` are undefined (NA)
exactly when purchases resp. visits are zero and otherwise equal the rounded
quotient; `roas` has no zero-denominator guard: for spend ≠ 0 it is the
rounded quotient, while for spend = 0 it is +inf, -inf or NaN according to
the sign of revenue. -/
theorem c2_channel_ratio_rules (d : List Record) (row : ChRow)
    (h : row ∈ by_ch d) :
    (row.cac = none ↔ row.purchase = 0) ∧
    (row.purchase ≠ 0 →
      row.cac = some (roundHalfEven (row.spend / (row.purchase : Rat)) 2)) ∧
    (row.cvr = none ↔ row.visits = 0) ∧
    (row.visits ≠ 0 →
      row.cvr = some (roundHalfEven ((row.purchase : Rat) / (row.visits : Rat)) 4)) ∧
    (row.spend ≠ 0 →
      row.roas = PFloat.num (roundHalfEven (row.revenue / row.spend) 2)) ∧
    (row.spend = 0 → 0 < row.revenue → row.roas = PFloat.posInf) ∧
    (row.spend = 0 → row.revenue < 0 → row.roas = PFloat.negInf) ∧
    (row.spend = 0 → row.revenue = 0 → row.roas = PFloat.nan) := by
  obtain ⟨c, hc, rfl⟩ := List.mem_map.mp h
  refine ⟨?_, ?_, ?_, ?_, ?_, ?_, ?_, ?_⟩
  · rw [mkChRow_cac]
    by_cases hp : (mkChRow d c).purchase = 0 <;> simp [hp]
  · intro hp
    rw [mkChRow_cac, if_neg hp]
  · rw [mkChRow_cvr]
    by_cases hv : (mkChRow d c).visits = 0 <;> simp [hv]
  · intro hv
    rw [mkChRow_cvr, if_neg hv]
  · intro hs
    rw [mkChRow_roas]
    simp only [pdiv, if_pos hs]
    rfl
  · intro hs hrv
    rw [mkChRow_roas, hs]
    simp only [pdiv]
    rw [if_neg (by simp), if_pos hrv]
    rfl
  · intro hs hrv
    rw [mkChRow_roas, hs]
    simp only [pdiv]
    rw [if_neg (by simp), if_neg (not_lt.mpr (le_of_lt hrv)), if_pos hrv]
    rfl
  · intro hs hrv
    rw [mkChRow_roas, hs, hrv]
    simp [pdiv, proundP]

/-- C2 witness: instantiating the amended rule on `exC2w`, whose single
channel row has two purchases, so its `cac` is defined. -/
theorem c2_channel_ratio_rules_witness : rowC2.cac = none ↔ rowC2.purchase = 0 :=
  (c2_channel_ratio_rules exC2w rowC2 (by with_unfolding_all decide)).1

/-- C3 counterexample: on the spec's own tie example A(3.0), B(1.5), C(3.0)
the best-ROAS selection returns C, the LAST occurrence of the tied maximum in
the grouped-channel output, not A as the claim states (the descending sort
reverses the stably-sorted order, reversing ties). -/
theorem c3_best_tie_counterexample :
    (by_ch exC3).map (fun r => (r.channel, r.roas)) =
      [("A", PFloat.num 3), ("B", PFloat.num (3 / 2)), ("C", PFloat.num 3)] ∧
    (bestRow exC3).map ChRow.channel = some "C" ∧ ("C" : String) ≠ "A" := by
  with_unfolding_all decide

/-- C3 (amended): when no roas is NaN, the best-ROAS row is a maximiser that
strictly exceeds every row occurring AFTER it in the grouped-channel output
(last-occurrence tie-break), while the worst-ROAS row is a minimiser strictly
below every row occurring BEFORE it (first-occurrence tie-break, as the claim
states for the minimum). -/
theorem c3_tie_break_rules (d : List Record) (b w : ChRow)
    (hb : bestRow d = some b) (hw : worstRow d = some w)
    (hnn : ∀ r ∈ by_ch d, r.roas.isNan = false) :
    b ∈ by_ch d ∧ (∀ y ∈ by_ch d, pfLe y.roas b.roas = true) ∧
    (∀ l₁ l₂, by_ch d = l₁ ++ b :: l₂ → ∀ y ∈ l₂, pfLt y.roas b.roas = true) ∧
    w ∈ by_ch d ∧ (∀ y ∈ by_ch d, pfLe w.roas y.roas = true) ∧
    (∀ l₁ l₂, by_ch d = l₁ ++ w :: l₂ → ∀ y ∈ l₁, pfLt w.roas y.roas = true) := by
  unfold bestRow at hb
  unfold worstRow at hw
  rw [sortHeadDesc_eq_argmax hnn] at hb
  rw [sortHeadAsc_eq_argmin hnn] at hw
  refine ⟨argmaxLast_mem hb, argmaxLast_le hb, ?_, argminFirst_mem hw,
    argminFirst_le hw, ?_⟩
  · intro l₁ l₂ heq y hy
    exact argmaxLast_last l₁ (heq ▸ by_ch_nodup d) (heq ▸ hb) y hy
  · intro l₁ l₂ heq y hy
    exact argminFirst_first l₁ (heq ▸ by_ch_nodup d) (heq ▸ hw) y hy

/-- C3 witness: the amended tie-break rule instantiated on the A/B/C tie
example, where the selected best row is the C row. -/
theorem c3_tie_break_rules_witness : bestC3 ∈ by_ch exC3 :=
  (c3_tie_break_rules exC3 bestC3 worstC3 (by with_unfolding_all decide)
    (by with_unfolding_all decide) (by with_unfolding_all decide)).1

/-- C4 counterexample: on a dataset with channel A on day 0 and channel B on
day 10, restricting the date range to [0,5] makes the multiselect offer only
["A"]: the options come from the date-filtered subset, not from the full
dataset's channel set ["A","B"] as the claim states. -/
theorem c4_default_channels_counterexample :
    channelOptions exC4 0 5 = ["A"] ∧
    sortedUnique (exC4.map Record.channel) = ["A", "B"] ∧
    (["A"] : List String) ≠ ["A", "B"] := by
  with_unfolding_all decide

/-- C4 (amended): the channel set offered to the filterer is exactly the set
of distinct channels of the DATE-FILTERED subset, sorted strictly ascending
(hence without duplicates). -/
theorem c4_channel_options_spec (d : List Record) (s e : Int) :
    (channelOptions d s e).Pairwise (· < ·) ∧
    (∀ c, c ∈ channelOptions d s e ↔
      ∃ r ∈ d, r.channel = c ∧ s ≤ r.date ∧ r.date ≤ e) := by
  refine ⟨pairwise_sortedUnique _, fun c => ?_⟩
  unfold channelOptions
  rw [mem_sortedUnique]
  simp only [dateFilter, List.mem_map, List.mem_filter, inRange,
    Bool.and_eq_true, decide_eq_true_eq]
  constructor
  · rintro ⟨r, ⟨hrd, h1, h2⟩, rfl⟩
    exact ⟨r, hrd, rfl, h1, h2⟩
  · rintro ⟨r, hrd, rfl, h1, h2⟩
    exact ⟨r, ⟨hrd, h1, h2⟩, rfl⟩

/-- C5 counterexample: with funnel counts 100, 50, 25, 25, 25 the first two
stages tie at a 50% drop, and the biggest-drop selection returns "Signup",
the LATEST tied stage, not the earliest stage "Visits" as the claim states. -/
theorem c5_drop_tie_counterexample :
    (funnelRows exC5).map FunnelRow.dropoff =
      [PFloat.num (1 / 2), PFloat.num (1 / 2), PFloat.num 0, PFloat.num 0,
        PFloat.nan] ∧
    (dropRow exC5).map FunnelRow.stage = some "Signup" ∧
    ("Signup" : String) ≠ "Visits" := by
  with_unfolding_all decide

/-- C5 (amended): the biggest-drop selection picks, among the rows kept by
`dropna()` (which keeps a zero-count stage whose successor count is nonzero,
since its drop is -inf, not NaN), a maximiser of `dropoff` that strictly
exceeds every retained row occurring AFTER it: ties are broken by the LATEST
stage, not the earliest. -/
theorem c5_drop_selection_rules (d : List Record) (x : FunnelRow)
    (h : dropRow d = some x) :
    x ∈ retainedRows d ∧
    (∀ y ∈ retainedRows d, pfLe y.dropoff x.dropoff = true) ∧
    (∀ l₁ l₂, retainedRows d = l₁ ++ x :: l₂ →
      ∀ y ∈ l₂, pfLt y.dropoff x.dropoff = true) := by
  unfold dropRow at h
  refine ⟨argmaxLast_mem h, argmaxLast_le h, ?_⟩
  intro l₁ l₂ heq y hy
  exact argmaxLast_last l₁ (heq ▸ retainedRows_nodup d) (heq ▸ h) y hy

/-- C5 witness: the amended selection rule instantiated on `exC5`, where the
selected row is the Signup row. -/
theorem c5_drop_selection_rules_witness : rowC5 ∈ retainedRows exC5 :=
  (c5_drop_selection_rules exC5 rowC5 (by with_unfolding_all decide)).1

/-- C6 counterexample: with funnel counts 0, 5, 0, 0, 0 the first stage has
count 0 but its dropoff is the rendered value -inf, not undefined (NaN):
`(0 - 5) / 0` is -inf under float division, so "undefined when count = 0"
fails whenever the next count is nonzero. -/
theorem c6_dropoff_zero_count_counterexample :
    (funnelRows exC6).map FunnelRow.dropoff =
      [PFloat.negInf, PFloat.num 1, PFloat.nan, PFloat.nan, PFloat.nan] ∧
    PFloat.negInf ≠ PFloat.nan := by
  with_unfolding_all decide

theorem mkDropoff_cases (c n : Nat) :
    (c ≠ 0 → mkDropoff c (some n) =
      PFloat.num (roundHalfEven (((c : Rat) - (n : Rat)) / (c : Rat)) 4)) ∧
    (c = 0 → 0 < n → mkDropoff c (some n) = PFloat.negInf) ∧
    (c = 0 → n = 0 → mkDropoff c (some n) = PFloat.nan) := by
  refine ⟨?_, ?_, ?_⟩
  · intro hc
    simp only [mkDropoff, pdiv]
    rw [if_pos (Nat.cast_ne_zero.mpr hc : (c : Rat) ≠ 0)]
    rfl
  · intro hc hn0
    subst hc
    have h2 : ¬(0 < -(n : Rat)) := by
      simp only [neg_pos, not_lt]
      positivity
    have h3 : -(n : Rat) < 0 := by
      have : (0 : Rat) < n := by exact_mod_cast hn0
      linarith
    simp only [mkDropoff, pdiv, Nat.cast_zero, zero_sub]
    rw [if_neg (by simp), if_neg h2, if_pos h3]
    rfl
  · intro hc hn0
    subst hc
    subst hn0
    with_unfolding_all decide

/-- C6 (amended): for every non-last funnel row, if its count is nonzero the
dropoff is the quotient rounded half-even to 4 places, exactly as claimed;
if its count is zero the dropoff is NaN (undefined) only when the next count
is also zero, and is -inf when the next count is positive. -/
theorem c6_dropoff_cases (d : List Record) (r : FunnelRow)
    (hr : r ∈ funnelRows d) (n : Nat) (hn : r.next = some n) :
    (r.count ≠ 0 →
      r.dropoff =
        PFloat.num (roundHalfEven (((r.count : Rat) - (n : Rat)) / (r.count : Rat)) 4)) ∧
    (r.count = 0 → 0 < n → r.dropoff = PFloat.negInf) ∧
    (r.count = 0 → n = 0 → r.dropoff = PFloat.nan) := by
  unfold funnelRows mkFunnel at hr
  simp only [List.mem_cons, List.not_mem_nil, or_false] at hr
  rcases hr with rfl | rfl | rfl | rfl | rfl <;>
    first
      | (obtain rfl := Option.some.inj hn
         exact mkDropoff_cases _ _)
      | exact absurd hn (by simp)

/-- C6 witness: the amended cases instantiated at the zero-count first stage
of `exC6`, whose successor count is 5, so the dropoff is -inf. -/
theorem c6_dropoff_cases_witness : rowC6.dropoff = PFloat.negInf :=
  (c6_dropoff_cases exC6 rowC6 (by with_unfolding_all decide) 5 rfl).2.1
    (by decide) (by decide)

/-- C7: whenever the required-column check finds missing names, the pipeline
halts with exactly the sorted list of missing (normalized) column names and
produces no KPI, funnel, or channel output, as the claim states. -/
theorem c7_missing_columns_halt (cols : List String) (d : List Record)
    (s e : Int) (sel : List String) (h : missingCols cols ≠ []) :
    validateAndRun cols d s e sel = Except.error (missingCols cols) ∧
    (missingCols cols).Pairwise (· < ·) := by
  refine ⟨?_, pairwise_sortedUnique _⟩
  simp only [validateAndRun]
  rw [if_neg h]

/-- C7 witness: a header lacking only `revenue` halts with error list
`["revenue"]` and renders nothing. -/
theorem c7_missing_columns_halt_witness :
    validateAndRun colsNoRevenue [] 0 0 [] =
      Except.error (missingCols colsNoRevenue) ∧
    (missingCols colsNoRevenue).Pairwise (· < ·) :=
  c7_missing_columns_halt colsNoRevenue [] 0 0 []
    (by with_unfolding_all decide)

/-- C8: when the channel selection covers every channel of the date-filtered
dataset, the per-channel sums of spend, revenue, purchases and visits equal
the corresponding top-level KPI totals (both are computed from the same
filtered rows, and the channel groups partition them). -/
theorem c8_channel_sums_match_kpis (d : List Record) (s e : Int)
    (sel : List String) (hcov : ∀ r ∈ dateFilter s e d, r.channel ∈ sel) :
    ((by_ch (applyFilters d s e sel)).map ChRow.spend).sum =
      (kpis (applyFilters d s e sel)).spend ∧
    ((by_ch (applyFilters d s e sel)).map ChRow.revenue).sum =
      (kpis (applyFilters d s e sel)).revenue ∧
    ((by_ch (applyFilters d s e sel)).map ChRow.purchase).sum =
      (kpis (applyFilters d s e sel)).purchases ∧
    ((by_ch (applyFilters d s e sel)).map ChRow.visits).sum =
      (kpis (applyFilters d s e sel)).visits := by
  refine ⟨?_, ?_, ?_, ?_⟩
  · rw [kpis_spend]; exact by_ch_spend_sum _
  · rw [kpis_revenue]; exact by_ch_revenue_sum _
  · rw [kpis_purchases]; exact by_ch_purchase_sum _
  · rw [kpis_visits]; exact by_ch_visits_sum _

/-- C8 witness: the totals identity instantiated on the three-channel dataset
with the full channel selection. -/
theorem c8_channel_sums_match_kpis_witness :
    ((by_ch (applyFilters exC3 0 0 ["A", "B", "C"])).map ChRow.spend).sum =
      (kpis (applyFilters exC3 0 0 ["A", "B", "C"])).spend :=
  (c8_channel_sums_match_kpis exC3 0 0 ["A", "B", "C"]
    (by with_unfolding_all decide)).1

/-- C9: filtering is idempotent — applying the date and channel filters again
with the same range and selection returns the same dataset — and pure in the
sense that the result is a subsequence of the untouched source dataset. -/
theorem c9_filter_idempotent_pure (d : List Record) (s e : Int)
    (sel : List String) :
    applyFilters (applyFilters d s e sel) s e sel = applyFilters d s e sel ∧
    (applyFilters d s e sel).Sublist d := by
  constructor
  · unfold applyFilters channelFilter dateFilter
    simp only [List.filter_filter]
    refine List.filter_congr ?_
    intro a _
    rcases hi : inRange s e a <;>
      rcases hc : sel.contains a.channel <;> simp [hi, hc]
  · exact (List.filter_sublist _).trans (List.filter_sublist _)

/-- C10: an uploaded file always takes precedence over the sample button, and
the bundled sample is loaded only when no file has been uploaded (with the
app stopping and awaiting input when neither is present). -/
theorem c10_uploaded_precedence :
    (∀ (α : Type) (u s : α) (b : Bool),
      chooseSource (some u) b s = LoadResult.data u) ∧
    (∀ (α : Type) (s : α),
      chooseSource (none : Option α) true s = LoadResult.data s) ∧
    (∀ (α : Type) (s : α),
      chooseSource (none : Option α) false s = LoadResult.awaitInput) :=
  ⟨fun _ _ _ _ => rfl, fun _ _ => rfl, fun _ _ => rfl⟩

end GrowthFunnel
